import Mathlib

/-!
# fileproxy — shallow embedding and verification

A shallow embedding of the core of `shared-utils/fileproxy` (a caching HTTP
forward proxy written in Go), with theorems settling the frozen claims about
its specification.

Embedded components, translated from the source:
* Range header parsing and range serving (`parseRange`, `serveRangeFromFile`
  in the proxy dispatch file);
* the `StreamingFile` single-writer / multi-reader primitive (`cache.go`);
* the `Cache` store: completed LRU with TTL, negative cache, pending map,
  eviction, index persistence (`cache.go`);
* the upstream fetch path `doFetchAndServe` and the streaming serve path
  (`serveFromStreaming`), and a small interleaving model of concurrent
  requests through `fetchAndServe`.

Go `int64` values are modelled as `Int`; byte strings as `List Nat`;
filesystem state as an association list from path to size.  Fallible
filesystem and network effects are passed in as explicit parameters.
-/

namespace Fileproxy

/-! ## Go string helpers

`strings.Split(s, "-")` on a single-character separator, modelled on
`List Char` so that we can reason about the parts. -/

/-- Go `strings.Split(s, "-")`: split at every dash, keeping empty parts. -/
def splitOnDash : List Char → List (List Char)
  | [] => [[]]
  | c :: rest =>
    if c = '-' then [] :: splitOnDash rest
    else
      match splitOnDash rest with
      | [] => [[c]]
      | p :: ps => (c :: p) :: ps

theorem splitOnDash_ne_nil (cs : List Char) : splitOnDash cs ≠ [] := by
  induction cs with
  | nil => simp [splitOnDash]
  | cons c rest ih =>
    simp only [splitOnDash]
    split
    · simp
    · cases h : splitOnDash rest with
      | nil => simp
      | cons p ps => simp

/-- No part produced by `splitOnDash` contains a dash. -/
theorem splitOnDash_no_dash (cs : List Char) :
    ∀ p ∈ splitOnDash cs, '-' ∉ p := by
  induction cs with
  | nil => intro p hp; simp [splitOnDash] at hp; simp [hp]
  | cons c rest ih =>
    intro p hp
    simp only [splitOnDash] at hp
    split at hp
    · rcases List.mem_cons.mp hp with h | h
      · simp [h]
      · exact ih p h
    · rename_i hc
      cases h : splitOnDash rest with
      | nil => exact absurd h (splitOnDash_ne_nil rest)
      | cons q qs =>
        rw [h] at hp
        rcases List.mem_cons.mp hp with h1 | h1
        · subst h1
          have hq : '-' ∉ q := ih q (by rw [h]; exact List.mem_cons_self q qs)
          intro hmem
          rcases List.mem_cons.mp hmem with h2 | h2
          · exact hc h2.symm
          · exact hq h2
        · exact ih p (by rw [h]; exact List.mem_cons_of_mem q h1)

/-- Character is an ASCII decimal digit (code points 48 to 57). -/
def isDigit (c : Char) : Bool := decide (48 ≤ c.toNat) && decide (c.toNat ≤ 57)

/-- Accumulate a decimal numeral, most significant digit first
(the Go `strconv` digit loop). -/
def digitsToInt (ds : List Char) : Int :=
  ds.foldl (fun acc c => acc * 10 + ((c.toNat : Int) - 48)) 0

/-- Digit run of Go `strconv.ParseInt(s, 10, 64)` after an optional sign:
a non-empty run of decimal digits whose magnitude stays within `bound`
(`2^63 - 1` for a positive value, `2^63` for a negative one); anything
else is an error (`none`). -/
def goParseDigits (bound : Int) (ds : List Char) : Option Int :=
  if ds = [] then none
  else if ds.all isDigit then
    if digitsToInt ds ≤ bound then some (digitsToInt ds) else none
  else none

/-- Go `strconv.ParseInt(s, 10, 64)`: optional sign, then a non-empty run
of decimal digits; the value must fit in a signed 64-bit integer,
otherwise an error (`none`) is returned. -/
def goParseInt (s : List Char) : Option Int :=
  match s with
  | [] => none
  | c :: rest =>
    if c = '+' then goParseDigits (2 ^ 63 - 1) rest
    else if c = '-' then (goParseDigits (2 ^ 63) rest).map (fun v => -v)
    else goParseDigits (2 ^ 63 - 1) (c :: rest)

theorem digitsToInt_nonneg_aux (ds : List Char) (hds : ds.all isDigit)
    (acc : Int) (hacc : 0 ≤ acc) :
    0 ≤ ds.foldl (fun acc c => acc * 10 + ((c.toNat : Int) - 48)) acc := by
  induction ds generalizing acc with
  | nil => simpa using hacc
  | cons c rest ih =>
    simp only [List.all_cons, Bool.and_eq_true] at hds
    have hd : 48 ≤ (c.toNat : Int) := by
      have := hds.1
      simp only [isDigit, Bool.and_eq_true, decide_eq_true_eq] at this
      exact_mod_cast this.1
    simp only [List.foldl_cons]
    exact ih hds.2 _ (by nlinarith)

theorem goParseDigits_nonneg (bound : Int) (ds : List Char) (v : Int)
    (h : goParseDigits bound ds = some v) : 0 ≤ v := by
  unfold goParseDigits at h
  split at h
  · simp at h
  · split at h
    · rename_i hall
      split at h
      · simp only [Option.some.injEq] at h
        subst h
        exact digitsToInt_nonneg_aux _ hall 0 le_rfl
      · simp at h
    · simp at h

/-- A numeral parsed from a dash-free string is non-negative. -/
theorem goParseInt_nonneg (s : List Char) (hs : '-' ∉ s) (v : Int)
    (h : goParseInt s = some v) : 0 ≤ v := by
  match s with
  | [] => simp [goParseInt] at h
  | c :: rest =>
    have hc : c ≠ '-' := fun hcc => hs (hcc ▸ List.mem_cons_self c rest)
    simp only [goParseInt, if_neg hc] at h
    split at h
    · exact goParseDigits_nonneg _ _ _ h
    · exact goParseDigits_nonneg _ _ _ h

/-! ## Range header parsing (`parseRange` in the proxy dispatch file)

`parseRange(rangeHeader, totalSize)` accepts only `bytes=start-end`,
`bytes=start-` and `bytes=-suffix`; it returns `(start, end, ok)`.
`none` models `ok = false`. -/

/-- Translated from the source `parseRange`. -/
def parseRange (rangeHeader : String) (totalSize : Int) : Option (Int × Int) :=
  let cs := rangeHeader.data
  if cs.take 6 ≠ "bytes=".data then none
  else
    match splitOnDash (cs.drop 6) with
    | [p0, p1] =>
      let parsed : Option (Int × Int) :=
        if p0 = [] then
          match goParseInt p1 with
          | none => none
          | some n =>
            let start := totalSize - n
            some (if start < 0 then 0 else start, totalSize - 1)
        else
          match goParseInt p0 with
          | none => none
          | some s =>
            if p1 = [] then some (s, totalSize - 1)
            else
              match goParseInt p1 with
              | none => none
              | some e => some (s, e)
      match parsed with
      | none => none
      | some (s, e) =>
        if s > e ∨ s ≥ totalSize then none
        else some (s, if e ≥ totalSize then totalSize - 1 else e)
    | _ => none

/-- Modelled from the spec's words (§4.7): `bytes=A-B → start=A, end=B`;
`bytes=A- → start=A, end=size-1`; `bytes=-N → start=max(0, size-N),
end=size-1`; reject if the prefix is wrong, parsing fails, `start > end`
or `start ≥ size`; otherwise clamp `end = min(end, size-1)`.  To be
compared with `parseRange`, which is translated from the code. -/
def parseRangeSpec (rangeHeader : String) (size : Int) : Option (Int × Int) :=
  let cs := rangeHeader.data
  if cs.take 6 ≠ "bytes=".data then none
  else
    match splitOnDash (cs.drop 6) with
    | [a, b] =>
      let parsed : Option (Int × Int) :=
        if a = [] then
          match goParseInt b with
          | none => none
          | some n => some (max 0 (size - n), size - 1)
        else
          match goParseInt a with
          | none => none
          | some s =>
            if b = [] then some (s, size - 1)
            else
              match goParseInt b with
              | none => none
              | some e => some (s, e)
      match parsed with
      | none => none
      | some (s, e) =>
        if s > e ∨ s ≥ size then none
        else some (s, min e (size - 1))
    | _ => none

theorem clamp_low_eq_max (x : Int) : (if x < 0 then 0 else x) = max 0 x := by
  rcases le_or_lt 0 x with h | h
  · rw [if_neg (not_lt.mpr h), max_eq_right h]
  · rw [if_pos h, max_eq_left (le_of_lt h)]

theorem clamp_high_eq_min (e S : Int) : (if e ≥ S then S - 1 else e) = min e (S - 1) := by
  rcases le_or_lt S e with h | h
  · rw [if_pos h, min_eq_right (by omega)]
  · rw [if_neg (not_le.mpr h), min_eq_left (by omega)]

/-- The code's range parser agrees with the spec's parsing formulas. -/
theorem parseRange_eq_parseRangeSpec (hdr : String) (S : Int) :
    parseRange hdr S = parseRangeSpec hdr S := by
  unfold parseRange parseRangeSpec
  simp only [clamp_low_eq_max, clamp_high_eq_min]

/-- A successful parse yields a range inside the file:
`0 ≤ start ≤ end ≤ size - 1`. -/
theorem parseRange_some_bounds (hdr : String) (S s e : Int)
    (h : parseRange hdr S = some (s, e)) : 0 ≤ s ∧ s ≤ e ∧ e ≤ S - 1 := by
  simp only [parseRange] at h
  split at h
  · simp at h
  · rename_i hpre
    split at h
    case h_2 => simp at h
    rename_i p0 p1 heq
    have hp0 : '-' ∉ p0 := splitOnDash_no_dash _ p0 (by rw [heq]; simp)
    have hp1 : '-' ∉ p1 := splitOnDash_no_dash _ p1 (by rw [heq]; simp)
    split at h
    case h_1 => simp at h
    rename_i s0 e0 hparsed
    split at h
    · simp at h
    · rename_i hguard
      simp only [Option.some.injEq, Prod.mk.injEq] at h
      obtain ⟨hs, he⟩ := h
      -- start is non-negative in every branch of the parse
      have h0 : 0 ≤ s0 := by
        split at hparsed
        · -- bytes=-N branch
          split at hparsed
          · simp at hparsed
          · simp only [Option.some.injEq, Prod.mk.injEq] at hparsed
            obtain ⟨h1, _⟩ := hparsed
            subst h1
            split <;> omega
        · -- bytes=A-B / bytes=A- branch
          split at hparsed
          case h_1 => simp at hparsed
          rename_i v hv
          have hv0 : 0 ≤ v := goParseInt_nonneg _ hp0 _ hv
          split at hparsed
          · simp only [Option.some.injEq, Prod.mk.injEq] at hparsed
            omega
          · split at hparsed
            case h_1 => simp at hparsed
            simp only [Option.some.injEq, Prod.mk.injEq] at hparsed
            omega
      push_neg at hguard
      obtain ⟨hse, hsS⟩ := hguard
      split at he <;> omega

/-! ## Serving a Range request from a completed cache file
(`serveRangeFromFile` in the proxy dispatch file) -/

/-- An HTTP response as far as the proxy shapes it: status code, the
headers the proxy sets explicitly, and the body bytes it writes. -/
structure RangeResponse where
  status : Nat
  headers : List (String × String)
  body : List Nat
  deriving DecidableEq

/-- Translated from the source `serveRangeFromFile`: on a bad range reply
`416` with `Content-Range: bytes */<size>`; otherwise set `Content-Range`
and `Content-Length`, respond `206`, seek to `start` and copy exactly
`end - start + 1` bytes. -/
def serveRangeFromFile (fileContent : List Nat) (totalSize : Int)
    (rangeHeader : String) : RangeResponse :=
  match parseRange rangeHeader totalSize with
  | none =>
    { status := 416
      headers := [("Content-Range", "bytes */" ++ toString totalSize)]
      body := [] }
  | some (s, e) =>
    let length := e - s + 1
    { status := 206
      headers := [("Content-Range",
                    "bytes " ++ toString s ++ "-" ++ toString e ++ "/" ++ toString totalSize),
                  ("Content-Length", toString length)]
      body := (fileContent.drop s.toNat).take length.toNat }

/-- C5: for a completed entry of size `S`, the Range forms `bytes=A-B`,
`bytes=A-` and `bytes=-N` are parsed per the spec's formulas
(`bytes=-N` giving `start = max(0, S-N)`, `end = S-1`); the request is
rejected with `416` and `Content-Range: bytes */S` exactly when the
prefix is wrong, parsing fails, `start > end` or `start ≥ S`; otherwise
`end` is clamped to `min(end, S-1)` and the response is `206` with
`Content-Range: bytes start-end/S`, `Content-Length: end-start+1`, and
exactly the bytes `[start, end]` of the file. -/
theorem C5_range_parse_and_serve (content : List Nat) (hdr : String) :
    parseRange hdr (content.length : Int) = parseRangeSpec hdr (content.length : Int) ∧
    (parseRange hdr (content.length : Int) = none →
      serveRangeFromFile content (content.length : Int) hdr =
        { status := 416
          headers := [("Content-Range", "bytes */" ++ toString (content.length : Int))]
          body := [] }) ∧
    (∀ s e : Int, parseRange hdr (content.length : Int) = some (s, e) →
      0 ≤ s ∧ s ≤ e ∧ e < (content.length : Int) ∧
      serveRangeFromFile content (content.length : Int) hdr =
        { status := 206
          headers := [("Content-Range",
                        "bytes " ++ toString s ++ "-" ++ toString e ++ "/" ++
                          toString (content.length : Int)),
                      ("Content-Length", toString (e - s + 1))]
          body := (content.drop s.toNat).take (e - s + 1).toNat } ∧
      ((content.drop s.toNat).take (e - s + 1).toNat).length = (e - s + 1).toNat ∧
      (∀ i : Nat, i < (e - s + 1).toNat →
        ((content.drop s.toNat).take (e - s + 1).toNat).getD i 0 =
          content.getD (s.toNat + i) 0)) := by
  refine ⟨parseRange_eq_parseRangeSpec hdr _, ?_, ?_⟩
  · intro h
    unfold serveRangeFromFile
    rw [h]
  · intro s e h
    obtain ⟨h0, hse, he⟩ := parseRange_some_bounds hdr _ s e h
    refine ⟨h0, hse, by omega, ?_, ?_, ?_⟩
    · unfold serveRangeFromFile
      rw [h]
    · rw [List.length_take, List.length_drop]
      omega
    · intro i hi
      rw [List.getD_eq_getElem?_getD, List.getD_eq_getElem?_getD,
        List.getElem?_take_of_lt hi, List.getElem?_drop]

/-- Witness for C5 at a concrete input: content `[10, 20, 30, 40]`,
header `bytes=1-2`. -/
theorem C5_range_parse_and_serve_witness :
    serveRangeFromFile [10, 20, 30, 40] (4 : Int) "bytes=1-2" =
      { status := 206
        headers := [("Content-Range", "bytes 1-2/4"), ("Content-Length", "2")]
        body := [20, 30] } := by
  have h := (C5_range_parse_and_serve [10, 20, 30, 40] "bytes=1-2").2.2 1 2 (by decide)
  exact h.2.2.2.1

/-! ## StreamingFile (`cache.go`)

One appender, N tailing readers.  The mutex-protected fields `size`,
`done`, `err` are modelled directly; the backing file is modelled by its
byte content plus an existence flag (`os.Create` made it, `os.Remove` in
`Abort` unlinks it).  The underlying `file.Write` syscall may fail; the
failure is passed in as an explicit flag on the operation.  As in the
source, `size` is advanced by the number of bytes the syscall reported
written even when it also reports an error. -/

structure StreamingFile where
  size : Int
  done : Bool
  err : Option String
  fileExists : Bool
  content : List Nat
  deriving DecidableEq

/-- `NewStreamingFile`: creates (truncates) the file, `size = 0`,
`done = false`, no error. -/
def NewStreamingFile : StreamingFile :=
  { size := 0, done := false, err := none, fileExists := true, content := [] }

/-- One operation on a StreamingFile.  A `write` carries the chunk and
the outcome of the underlying `file.Write` syscall: `n` bytes written
(`n = p.length` on success) and whether the syscall failed. -/
inductive SFOp where
  | write (p : List Nat) (n : Nat) (fsOk : Bool)
  | complete
  | abort
  deriving DecidableEq

/-- `Write`: rejected with error `streaming file closed` if `done`;
otherwise append to the file, add the reported count to `size`, and
broadcast.  Returns the error result of the call. -/
def StreamingFile.writeOp (sf : StreamingFile) (p : List Nat) (n : Nat)
    (fsOk : Bool) : StreamingFile × Option String :=
  if sf.done then (sf, some "streaming file closed")
  else
    ({ sf with size := sf.size + n, content := sf.content ++ p.take n },
     if fsOk then none else some "write failed")

/-- `Complete`: mark `done`, close the writer handle, broadcast. -/
def StreamingFile.completeOp (sf : StreamingFile) : StreamingFile :=
  { sf with done := true }

/-- `Abort`: mark `done`, set `err = download aborted`, close the writer
handle, unlink the backing file, broadcast. -/
def StreamingFile.abortOp (sf : StreamingFile) : StreamingFile :=
  { sf with done := true, err := some "download aborted", fileExists := false }

/-- Apply one operation, returning the new state and the operation's
error result. -/
def sfStep (sf : StreamingFile) : SFOp → StreamingFile × Option String
  | SFOp.write p n fsOk => sf.writeOp p n fsOk
  | SFOp.complete => (sf.completeOp, none)
  | SFOp.abort => (sf.abortOp, none)

/-- The StreamingFile reached from `NewStreamingFile` by a sequence of
writer operations. -/
def sfRun (ops : List SFOp) : StreamingFile :=
  ops.foldl (fun sf op => (sfStep sf op).1) NewStreamingFile

theorem sfStep_size_mono (sf : StreamingFile) (op : SFOp) :
    sf.size ≤ (sfStep sf op).1.size := by
  cases op with
  | write p n fsOk =>
    simp only [sfStep, StreamingFile.writeOp]
    split
    · exact le_rfl
    · simp only
      omega
  | complete => exact le_rfl
  | abort => exact le_rfl

theorem sfStep_done_frozen (sf : StreamingFile) (op : SFOp) (h : sf.done = true) :
    (sfStep sf op).1.size = sf.size := by
  cases op with
  | write p n fsOk => simp [sfStep, StreamingFile.writeOp, h]
  | complete => rfl
  | abort => rfl

/-- The error invariant is preserved from any state satisfying it. -/
theorem sfRun_err_invariant_aux (ops : List SFOp) (sf : StreamingFile)
    (hsf : sf.err.isSome = true → sf.done = true ∧ sf.fileExists = false) :
    (ops.foldl (fun sf op => (sfStep sf op).1) sf).err.isSome = true →
      (ops.foldl (fun sf op => (sfStep sf op).1) sf).done = true ∧
      (ops.foldl (fun sf op => (sfStep sf op).1) sf).fileExists = false := by
  induction ops generalizing sf with
  | nil => simpa using hsf
  | cons op rest ih =>
    simp only [List.foldl_cons]
    apply ih
    cases op with
    | write p n fsOk =>
      simp only [sfStep, StreamingFile.writeOp]
      split
      · exact hsf
      · simpa using hsf
    | complete =>
      intro herr
      simp only [sfStep, StreamingFile.completeOp] at herr ⊢
      exact ⟨trivial, (hsf herr).2⟩
    | abort =>
      intro _
      simp [sfStep, StreamingFile.abortOp]

/-- C6: across any sequence of write/complete/abort operations the
`size` field is monotonically non-decreasing; once `done` is true a
write fails and leaves `size` unchanged; and `err ≠ nil` implies
`done = true` and the backing file has been unlinked. -/
theorem C6_streamingfile_invariants (ops : List SFOp) :
    (∀ op : SFOp, (sfRun ops).size ≤ (sfStep (sfRun ops) op).1.size) ∧
    ((sfRun ops).done = true →
      ∀ p n fsOk,
        (sfStep (sfRun ops) (SFOp.write p n fsOk)).1.size = (sfRun ops).size ∧
        (sfStep (sfRun ops) (SFOp.write p n fsOk)).2 = some "streaming file closed") ∧
    ((sfRun ops).err.isSome = true →
      (sfRun ops).done = true ∧ (sfRun ops).fileExists = false) := by
  refine ⟨fun op => sfStep_size_mono _ op, ?_, ?_⟩
  · intro hdone p n fsOk
    constructor
    · exact sfStep_done_frozen _ _ hdone
    · simp [sfStep, StreamingFile.writeOp, hdone]
  · exact sfRun_err_invariant_aux ops NewStreamingFile (by simp [NewStreamingFile])

/-- Witness for C6 at a concrete operation sequence: a write of two
bytes, then an abort (so the hypotheses `done = true` and
`err.isSome = true` are both dischargeable). -/
theorem C6_streamingfile_invariants_witness :
    ((sfRun [SFOp.write [7, 8] 2 true, SFOp.abort]).done = true ∧
     (sfRun [SFOp.write [7, 8] 2 true, SFOp.abort]).fileExists = false) ∧
    (sfStep (sfRun [SFOp.write [7, 8] 2 true, SFOp.abort])
        (SFOp.write [9] 1 true)).1.size =
      (sfRun [SFOp.write [7, 8] 2 true, SFOp.abort]).size := by
  have h := C6_streamingfile_invariants [SFOp.write [7, 8] 2 true, SFOp.abort]
  refine ⟨h.2.2 (by decide), ?_⟩
  exact (h.2.1 (by decide) [9] 1 true).1

/-! ## Association-list helpers

The pending map, the negative cache, the completed LRU and the filesystem
are all modelled as association lists keyed by strings.  LRU lists are
kept in least-recently-used-first order: `RemoveOldest` takes the head,
`Add` appends at the tail. -/

/-- First binding for a key. -/
def alookup {α : Type} : List (String × α) → String → Option α
  | [], _ => none
  | (p, v) :: rest, q => if p = q then some v else alookup rest q

/-- Remove every binding for a key. -/
def aerase {α : Type} (l : List (String × α)) (k : String) : List (String × α) :=
  l.filter (fun e => !(e.1 == k))

/-- Replace the binding for a key (used for `os.Create`, which truncates). -/
def aset {α : Type} (l : List (String × α)) (k : String) (v : α) : List (String × α) :=
  aerase l k ++ [(k, v)]

theorem alookup_append_of_none {α : Type} (l1 l2 : List (String × α)) (k : String)
    (h : alookup l1 k = none) : alookup (l1 ++ l2) k = alookup l2 k := by
  induction l1 with
  | nil => simp
  | cons e rest ih =>
    obtain ⟨p, v⟩ := e
    simp only [alookup, List.cons_append] at h ⊢
    split at h
    · simp at h
    · rename_i hp
      rw [if_neg hp]
      exact ih h

theorem alookup_aerase_self {α : Type} (l : List (String × α)) (k : String) :
    alookup (aerase l k) k = none := by
  induction l with
  | nil => simp [aerase, alookup]
  | cons e rest ih =>
    obtain ⟨p, v⟩ := e
    simp only [aerase, List.filter_cons] at ih ⊢
    split
    · rename_i hp
      simp only [Bool.not_eq_true', beq_eq_false_iff_ne, ne_eq] at hp
      simp only [alookup, if_neg hp]
      exact ih
    · exact ih

theorem alookup_aerase_ne {α : Type} (l : List (String × α)) (k k2 : String)
    (h : k2 ≠ k) : alookup (aerase l k) k2 = alookup l k2 := by
  induction l with
  | nil => simp [aerase]
  | cons e rest ih =>
    obtain ⟨p, v⟩ := e
    simp only [aerase, List.filter_cons] at ih ⊢
    split
    · simp only [alookup]
      split
      · rfl
      · exact ih
    · rename_i hp
      simp only [Bool.not_eq_true, Bool.not_eq_false', beq_iff_eq] at hp
      have : p ≠ k2 := fun hc => h (by rw [← hc, hp])
      simp only [alookup, if_neg this]
      exact ih

theorem alookup_tail_of_none {α : Type} (l : List (String × α)) (k : String)
    (h : alookup l k = none) : alookup l.tail k = none := by
  cases l with
  | nil => exact h
  | cons e rest =>
    obtain ⟨p, v⟩ := e
    simp only [alookup] at h
    split at h
    · simp at h
    · simpa using h

/-- Membership via lookup. -/
def amem {α : Type} (l : List (String × α)) (k : String) : Bool :=
  (alookup l k).isSome

/-! ## The cache store (`cache.go`)

`Cache` holds the completed-file LRU (`fileCache`, sliding TTL, evicted
entries unlink their file and subtract their size from `totalSize`), the
negative cache (`notFoundCache`, capacity 10000), the pending map, and —
for this model — the cache-directory filesystem as a map from path to
file size. -/

/-- `CacheEntry` from `cache.go`. -/
structure CacheEntry where
  key : String
  filePath : String
  size : Int
  contentType : String
  createdAt : Int
  deriving DecidableEq

structure CacheState where
  maxCacheSize : Int
  defaultCacheTTL : Int
  notFoundCacheTTL : Int
  /-- Completed entries, least recently used first, with expiry instants. -/
  fileCache : List (String × CacheEntry × Int)
  /-- Negative cache, least recently used first, with expiry instants. -/
  notFoundCache : List (String × Int)
  totalSize : Int
  /-- In-flight downloads. -/
  pending : List (String × StreamingFile)
  /-- Cache-directory contents: file path to size on disk. -/
  fs : List (String × Int)
  deriving DecidableEq

/-- A fresh cache (`NewCache` with an empty cache directory). -/
def cacheInit (maxSize ttl nfTtl : Int) : CacheState :=
  { maxCacheSize := maxSize, defaultCacheTTL := ttl, notFoundCacheTTL := nfTtl,
    fileCache := [], notFoundCache := [], totalSize := 0, pending := [], fs := [] }

/-- The sharded cache file path `<root>/<hh>/<hex-sha256-of-key>`
(`filePath` in `cache.go`).  The SHA-256 hex name is modelled by an
injective encoding of the key; collision-freedom of the hash is the
modelling assumption. -/
def filePath (key : String) : String := "cache/" ++ key

/-- `expirable.LRU.Add`: drop any old binding, append at the
most-recently-used end with a fresh expiry, and if the capacity `cap`
(0 = unlimited) is now exceeded evict the oldest element. -/
def lruAdd {α : Type} (l : List (String × α)) (k : String) (v : α) (cap : Nat) :
    List (String × α) :=
  let l2 := aerase l k ++ [(k, v)]
  if cap ≠ 0 ∧ l2.length > cap then l2.tail else l2

/-- `expirable.LRU.Get` hit test: present and not yet expired
(hashicorp expires an entry when `now` is after `expiresAt`). -/
def lruGetValid {α : Type} (l : List (String × α × Int)) (k : String) (now : Int) :
    Option α :=
  match alookup l k with
  | some (v, exp) => if now ≤ exp then some v else none
  | none => none

/-- `Cache.Get`: a hit in the negative cache (within TTL) answers "miss"
and refreshes the negative-cache TTL; otherwise a valid completed entry
is returned with its TTL refreshed (sliding); otherwise a miss.
Returns the looked-up entry (`nil, false` modelled as `none`) and the
updated cache.  The recency bump of `LRU.Get` followed by the refreshing
`LRU.Add` of the source collapse into one `lruAdd`. -/
def CacheState.Get (c : CacheState) (key : String) (now : Int) :
    Option CacheEntry × CacheState :=
  match alookup c.notFoundCache key with
  | some exp =>
    if now ≤ exp then
      (none, { c with notFoundCache :=
                 lruAdd c.notFoundCache key (now + c.notFoundCacheTTL) 10000 })
    else
      match lruGetValid c.fileCache key now with
      | some entry =>
        (some entry, { c with fileCache :=
                         lruAdd c.fileCache key (entry, now + c.defaultCacheTTL) 0 })
      | none => (none, c)
  | none =>
    match lruGetValid c.fileCache key now with
    | some entry =>
      (some entry, { c with fileCache :=
                       lruAdd c.fileCache key (entry, now + c.defaultCacheTTL) 0 })
    | none => (none, c)

/-- `Cache.GetPending`. -/
def CacheState.GetPending (c : CacheState) (key : String) : Option StreamingFile :=
  alookup c.pending key

/-- `Cache.GetOrCreatePending`: under the pending lock, return the
existing StreamingFile with `is_new = false`, or create the cache file
on disk (truncating: `os.Create`), insert it and return `is_new = true`.
`createOk = false` models a directory- or file-creation failure, which
returns an error and inserts nothing. -/
def CacheState.GetOrCreatePending (c : CacheState) (key : String) (createOk : Bool) :
    Option (StreamingFile × Bool) × CacheState :=
  match alookup c.pending key with
  | some sf => (some (sf, false), c)
  | none =>
    if createOk then
      (some (NewStreamingFile, true),
       { c with pending := c.pending ++ [(key, NewStreamingFile)],
                fs := aset c.fs (filePath key) 0 })
    else (none, c)

/-- `Cache.evictIfNeeded`: while `totalSize + incoming > maxCacheSize`,
remove the least-recently-used completed entry; each eviction runs the
LRU callback, which unlinks the entry's backing file and subtracts its
size from `totalSize`.  Stops when the LRU is empty.  Returns the
remaining LRU, the new total size and the new filesystem. -/
def evictIfNeeded (incoming maxSize : Int) :
    List (String × CacheEntry × Int) → Int → List (String × Int) →
    List (String × CacheEntry × Int) × Int × List (String × Int)
  | [], total, fs => ([], total, fs)
  | e :: rest, total, fs =>
    if total + incoming ≤ maxSize then (e :: rest, total, fs)
    else
      evictIfNeeded incoming maxSize rest (total - e.2.1.size)
        (aerase fs e.2.1.filePath)

/-- `Cache.CompletePending`: remove the key from pending (no-op when
absent), complete the StreamingFile, evict as needed, then install the
completed entry and add its size to `totalSize`. -/
def CacheState.CompletePending (c : CacheState) (key : String) (size : Int)
    (contentType : String) (now : Int) : CacheState :=
  match alookup c.pending key with
  | none => c
  | some sf =>
    let _sfDone := sf.completeOp
    let r := evictIfNeeded size c.maxCacheSize c.fileCache c.totalSize c.fs
    let entry : CacheEntry :=
      { key := key, filePath := filePath key, size := size,
        contentType := contentType, createdAt := now }
    { c with pending := aerase c.pending key,
             fileCache := lruAdd r.1 key (entry, now + c.defaultCacheTTL) 0,
             totalSize := r.2.1 + size,
             fs := r.2.2 }

/-- `Cache.FailPending`: remove the key from pending (no-op when absent)
and abort the StreamingFile, which unlinks its backing file. -/
def CacheState.FailPending (c : CacheState) (key : String) : CacheState :=
  match alookup c.pending key with
  | none => c
  | some sf =>
    let _sfAborted := sf.abortOp
    { c with pending := aerase c.pending key,
             fs := aerase c.fs (filePath key) }

/-- `Cache.PutNotFound`. -/
def CacheState.PutNotFound (c : CacheState) (key : String) (now : Int) : CacheState :=
  { c with notFoundCache :=
      lruAdd c.notFoundCache key (now + c.notFoundCacheTTL) 10000 }

/-- `Cache.Remove`: remove from the completed cache (running the
eviction callback: unlink the backing file, subtract the size) and from
the negative cache.  The pending map is untouched. -/
def CacheState.Remove (c : CacheState) (key : String) : CacheState :=
  match alookup c.fileCache key with
  | some (entry, _) =>
    { c with fileCache := aerase c.fileCache key,
             fs := aerase c.fs entry.filePath,
             totalSize := c.totalSize - entry.size,
             notFoundCache := aerase c.notFoundCache key }
  | none => { c with notFoundCache := aerase c.notFoundCache key }

theorem alookup_append {α : Type} (l1 l2 : List (String × α)) (k : String) :
    alookup (l1 ++ l2) k =
      match alookup l1 k with
      | some v => some v
      | none => alookup l2 k := by
  induction l1 with
  | nil => simp [alookup]
  | cons e rest ih =>
    obtain ⟨p, v⟩ := e
    simp only [alookup, List.cons_append]
    split
    · rfl
    · exact ih

/-- Looking up the key just added by `lruAdd` finds the fresh value
(the capacity eviction can only drop the oldest element, never the one
just appended, as long as the capacity is not 1 with a non-trivial drop;
in the source the capacities are 0 (unlimited) and 10000). -/
theorem alookup_lruAdd_self {α : Type} (l : List (String × α)) (k : String)
    (v : α) (cap : Nat) :
    alookup (lruAdd l k v cap) k = some v := by
  have hbase : alookup (aerase l k ++ [(k, v)]) k = some v := by
    rw [alookup_append_of_none _ _ _ (alookup_aerase_self l k)]
    simp [alookup]
  simp only [lruAdd]
  split
  · rename_i hlen
    obtain ⟨hne, hlen⟩ := hlen
    cases hE : aerase l k with
    | nil =>
      rw [hE] at hlen
      simp only [List.nil_append, List.length_cons, List.length_nil] at hlen
      omega
    | cons a As =>
      simp only [List.cons_append, List.tail_cons]
      have hA : alookup (a :: As) k = none := by
        have := alookup_aerase_self l k
        rwa [hE] at this
      have : alookup As k = none := alookup_tail_of_none _ _ hA
      rw [alookup_append_of_none _ _ _ this]
      simp [alookup]
  · exact hbase

/-- C9: while a key is in the negative cache within its TTL, `Get`
reports a miss even if a completed entry for the key exists, and the
lookup refreshes the negative-cache TTL (to `now + notFoundCacheTTL`)
while leaving the completed store untouched. -/
theorem C9_negative_cache_shadows_completed (c : CacheState) (key : String)
    (now exp : Int) (hnf : alookup c.notFoundCache key = some exp)
    (hvalid : now ≤ exp) :
    (c.Get key now).1 = none ∧
    alookup (c.Get key now).2.notFoundCache key = some (now + c.notFoundCacheTTL) ∧
    (c.Get key now).2.fileCache = c.fileCache := by
  unfold CacheState.Get
  rw [hnf]
  simp only [if_pos hvalid]
  refine ⟨trivial, ?_, trivial⟩
  exact alookup_lruAdd_self _ _ _ _

/-- Witness for C9 at a concrete cache that has the key in *both* the
negative cache and the completed store. -/
theorem C9_negative_cache_shadows_completed_witness :
    ((CacheState.Get
        { maxCacheSize := 100, defaultCacheTTL := 10, notFoundCacheTTL := 5,
          fileCache := [("k",
            { key := "k", filePath := "cache/k", size := 3,
              contentType := "text/plain", createdAt := 0 }, 50)],
          notFoundCache := [("k", 20)], totalSize := 3, pending := [],
          fs := [("cache/k", 3)] } "k" 7).1 = none) ∧
    alookup (CacheState.Get
        { maxCacheSize := 100, defaultCacheTTL := 10, notFoundCacheTTL := 5,
          fileCache := [("k",
            { key := "k", filePath := "cache/k", size := 3,
              contentType := "text/plain", createdAt := 0 }, 50)],
          notFoundCache := [("k", 20)], totalSize := 3, pending := [],
          fs := [("cache/k", 3)] } "k" 7).2.notFoundCache "k" = some 12 := by
  have h := C9_negative_cache_shadows_completed
    { maxCacheSize := 100, defaultCacheTTL := 10, notFoundCacheTTL := 5,
      fileCache := [("k",
        { key := "k", filePath := "cache/k", size := 3,
          contentType := "text/plain", createdAt := 0 }, 50)],
      notFoundCache := [("k", 20)], totalSize := 3, pending := [],
      fs := [("cache/k", 3)] } "k" 7 20 (by decide) (by decide)
  exact ⟨h.1, h.2.1⟩

/-! ## Eviction characterisation -/

/-- Full characterisation of the `evictIfNeeded` while-loop: some prefix
`evicted` of the LRU order is removed; the loop ran exactly while
`totalSize + incoming` exceeded the bound; each eviction subtracts the
entry's size and unlinks the entry's backing file; and the loop stops
either because the bound is satisfied or because the LRU became empty. -/
theorem evictIfNeeded_spec (incoming maxSize : Int)
    (lru : List (String × CacheEntry × Int)) (total : Int)
    (fs : List (String × Int)) :
    ∃ evicted : List (String × CacheEntry × Int),
      lru = evicted ++ (evictIfNeeded incoming maxSize lru total fs).1 ∧
      (evictIfNeeded incoming maxSize lru total fs).2.1 =
        total - (evicted.map (fun e => e.2.1.size)).sum ∧
      (evictIfNeeded incoming maxSize lru total fs).2.2 =
        evicted.foldl (fun acc e => aerase acc e.2.1.filePath) fs ∧
      ((evictIfNeeded incoming maxSize lru total fs).2.1 + incoming ≤ maxSize ∨
        (evictIfNeeded incoming maxSize lru total fs).1 = []) ∧
      (∀ j, j < evicted.length →
        total - ((evicted.take j).map (fun e => e.2.1.size)).sum + incoming >
          maxSize) := by
  induction lru generalizing total fs with
  | nil =>
    refine ⟨[], by simp [evictIfNeeded], by simp [evictIfNeeded], ?_, ?_, ?_⟩
    · simp [evictIfNeeded]
    · right; simp [evictIfNeeded]
    · intro j hj; simp at hj
  | cons e rest ih =>
    by_cases hcond : total + incoming ≤ maxSize
    · refine ⟨[], ?_, ?_, ?_, ?_, ?_⟩
      · simp [evictIfNeeded, hcond]
      · simp [evictIfNeeded, hcond]
      · simp [evictIfNeeded, hcond]
      · left; simp [evictIfNeeded, hcond]
      · intro j hj; simp at hj
    · have hstep :
          evictIfNeeded incoming maxSize (e :: rest) total fs =
            evictIfNeeded incoming maxSize rest (total - e.2.1.size)
              (aerase fs e.2.1.filePath) := by
        simp [evictIfNeeded, hcond]
      obtain ⟨ev, h1, h2, h3, h4, h5⟩ := ih (total - e.2.1.size) (aerase fs e.2.1.filePath)
      refine ⟨e :: ev, ?_, ?_, ?_, ?_, ?_⟩
      · rw [hstep, List.cons_append]
        exact congrArg (e :: ·) h1
      · rw [hstep, h2]
        simp only [List.map_cons, List.sum_cons]
        ring
      · rw [hstep, h3]
        simp [List.foldl_cons]
      · rw [hstep]
        exact h4
      · intro j hj
        cases j with
        | zero => simpa using not_le.mp hcond
        | succ j2 =>
          simp only [List.length_cons, Nat.succ_lt_succ_iff] at hj
          have := h5 j2 hj
          simp only [List.take_succ_cons, List.map_cons, List.sum_cons]
          omega

/-! ## Operations sequences on the cache store (for the pending/completed
exclusivity invariant) -/

/-- One public `Cache` operation, with its external inputs (time of the
call, success of the file creation). -/
inductive CacheOp where
  | get (key : String) (now : Int)
  | getOrCreatePending (key : String) (createOk : Bool)
  | completePending (key : String) (size : Int) (contentType : String) (now : Int)
  | failPending (key : String)
  | remove (key : String)
  deriving DecidableEq

/-- Apply one operation to the store. -/
def applyOp (c : CacheState) : CacheOp → CacheState
  | CacheOp.get k now => (c.Get k now).2
  | CacheOp.getOrCreatePending k ok => (c.GetOrCreatePending k ok).2
  | CacheOp.completePending k sz ct now => c.CompletePending k sz ct now
  | CacheOp.failPending k => c.FailPending k
  | CacheOp.remove k => c.Remove k

theorem amem_aerase_imp {α : Type} (l : List (String × α)) (k k2 : String)
    (h : amem (aerase l k2) k = true) : amem l k = true := by
  by_cases hk : k = k2
  · subst hk
    unfold amem at h
    rw [alookup_aerase_self] at h
    simp at h
  · unfold amem at h ⊢
    rwa [alookup_aerase_ne _ _ _ hk] at h

theorem amem_append_elim {α : Type} (l1 l2 : List (String × α)) (k : String)
    (h : amem (l1 ++ l2) k = true) : amem l1 k = true ∨ amem l2 k = true := by
  unfold amem at h ⊢
  rw [alookup_append] at h
  cases hl : alookup l1 k with
  | some v => left; simp [hl]
  | none => right; rw [hl] at h; simpa using h

theorem amem_tail_imp {α : Type} (l : List (String × α)) (k : String)
    (h : amem l.tail k = true) : amem l k = true := by
  cases l with
  | nil => simpa using h
  | cons e rest =>
    obtain ⟨p, v⟩ := e
    unfold amem alookup
    split
    · simp
    · simpa [amem, List.tail_cons] using h

/-- Membership after `lruAdd` comes from the added key or from the
original list. -/
theorem amem_lruAdd_elim {α : Type} (l : List (String × α)) (k2 : String)
    (v : α) (cap : Nat) (k : String) (h : amem (lruAdd l k2 v cap) k = true) :
    k = k2 ∨ amem l k = true := by
  simp only [lruAdd] at h
  have hbase : amem (aerase l k2 ++ [(k2, v)]) k = true → k = k2 ∨ amem l k = true := by
    intro hb
    rcases amem_append_elim _ _ _ hb with h1 | h1
    · exact Or.inr (amem_aerase_imp _ _ _ h1)
    · left
      unfold amem alookup at h1
      by_cases hkk : k2 = k
      · exact hkk.symm
      · rw [if_neg hkk] at h1
        simp [amem, alookup] at h1
  split at h
  · exact hbase (amem_tail_imp _ _ h)
  · exact hbase h

theorem amem_singleton_eq {α : Type} (k2 k : String) (v : α)
    (h : amem [(k2, v)] k = true) : k = k2 := by
  unfold amem alookup at h
  split at h
  · rename_i hk; exact hk.symm
  · simp [alookup] at h

theorem amem_append_right {α : Type} (l1 l2 : List (String × α)) (k : String)
    (h : amem l2 k = true) : amem (l1 ++ l2) k = true := by
  unfold amem at h ⊢
  rw [alookup_append]
  cases hl : alookup l1 k with
  | some v => simp
  | none => simpa using h

/-- A key is in at most one of the completed store and the pending map. -/
def exclusive (c : CacheState) : Prop :=
  ∀ k, ¬(amem c.fileCache k = true ∧ amem c.pending k = true)

theorem exclusive_Get (c : CacheState) (h : exclusive c) (key : String)
    (now : Int) : exclusive (c.Get key now).2 := by
  have hfile : ∀ entry : CacheEntry,
      lruGetValid c.fileCache key now = some entry →
      exclusive
        { c with
          fileCache := lruAdd c.fileCache key (entry, now + c.defaultCacheTTL) 0 } := by
    intro entry hget k hk
    obtain ⟨hfc, hp⟩ := hk
    have hp2 : amem c.pending k = true := hp
    have hfc3 : amem (lruAdd c.fileCache key (entry, now + c.defaultCacheTTL) 0)
        k = true := hfc
    rcases amem_lruAdd_elim _ _ _ _ _ hfc3 with rfl | hfc2
    · have hmem : amem c.fileCache k = true := by
        unfold lruGetValid at hget
        unfold amem
        cases hl : alookup c.fileCache k with
        | none => rw [hl] at hget; simp at hget
        | some p => simp
      exact h k ⟨hmem, hp2⟩
    · exact h k ⟨hfc2, hp2⟩
  unfold CacheState.Get
  cases hnf : alookup c.notFoundCache key with
  | some exp =>
    by_cases hv : now ≤ exp
    · simp only [if_pos hv]
      intro k hk
      exact h k ⟨hk.1, hk.2⟩
    · simp only [if_neg hv]
      cases hfg : lruGetValid c.fileCache key now with
      | some entry => exact hfile entry hfg
      | none => intro k hk; exact h k ⟨hk.1, hk.2⟩
  | none =>
    cases hfg : lruGetValid c.fileCache key now with
    | some entry => exact hfile entry hfg
    | none => intro k hk; exact h k ⟨hk.1, hk.2⟩

theorem exclusive_GetOrCreatePending (c : CacheState) (h : exclusive c)
    (key : String) (ok : Bool) (hguard : amem c.fileCache key = false) :
    exclusive (c.GetOrCreatePending key ok).2 := by
  unfold CacheState.GetOrCreatePending
  cases hp : alookup c.pending key with
  | some sf => intro k hk; exact h k ⟨hk.1, hk.2⟩
  | none =>
    by_cases hok : ok = true
    · simp only [if_pos hok]
      intro k hk
      obtain ⟨hfc, hpen⟩ := hk
      have hfc2 : amem c.fileCache k = true := hfc
      have hpen2 : amem (c.pending ++ [(key, NewStreamingFile)]) k = true := hpen
      rcases amem_append_elim _ _ _ hpen2 with h1 | h1
      · exact h k ⟨hfc2, h1⟩
      · have hkk : k = key := amem_singleton_eq _ _ _ h1
        subst hkk
        rw [hguard] at hfc2
        exact absurd hfc2 (by simp)
    · simp only [if_neg hok]
      intro k hk
      exact h k ⟨hk.1, hk.2⟩

theorem exclusive_CompletePending (c : CacheState) (h : exclusive c)
    (key : String) (sz : Int) (ct : String) (now : Int) :
    exclusive (c.CompletePending key sz ct now) := by
  unfold CacheState.CompletePending
  cases hp : alookup c.pending key with
  | none => intro k hk; exact h k ⟨hk.1, hk.2⟩
  | some sf =>
    intro k hk
    obtain ⟨hfc, hpen⟩ := hk
    have hpen3 : amem (aerase c.pending key) k = true := hpen
    have hfc3 : amem (lruAdd
        (evictIfNeeded sz c.maxCacheSize c.fileCache c.totalSize c.fs).1 key
        ({ key := key, filePath := filePath key, size := sz,
           contentType := ct, createdAt := now }, now + c.defaultCacheTTL) 0)
        k = true := hfc
    have hpk : k ≠ key := by
      intro hkk
      subst hkk
      unfold amem at hpen3
      rw [alookup_aerase_self] at hpen3
      simp at hpen3
    have hpen2 : amem c.pending k = true := amem_aerase_imp _ _ _ hpen3
    rcases amem_lruAdd_elim _ _ _ _ _ hfc3 with rfl | hfc2
    · exact hpk rfl
    · obtain ⟨ev, h1, -, -, -, -⟩ :=
        evictIfNeeded_spec sz c.maxCacheSize c.fileCache c.totalSize c.fs
      have hmem : amem c.fileCache k = true := by
        rw [h1]
        exact amem_append_right _ _ _ hfc2
      exact h k ⟨hmem, hpen2⟩

theorem exclusive_FailPending (c : CacheState) (h : exclusive c) (key : String) :
    exclusive (c.FailPending key) := by
  unfold CacheState.FailPending
  cases hp : alookup c.pending key with
  | none => intro k hk; exact h k ⟨hk.1, hk.2⟩
  | some sf =>
    intro k hk
    obtain ⟨hfc, hpen⟩ := hk
    have hfc2 : amem c.fileCache k = true := hfc
    have hpen3 : amem (aerase c.pending key) k = true := hpen
    exact h k ⟨hfc2, amem_aerase_imp _ _ _ hpen3⟩

theorem exclusive_Remove (c : CacheState) (h : exclusive c) (key : String) :
    exclusive (c.Remove key) := by
  unfold CacheState.Remove
  cases hx : alookup c.fileCache key with
  | some p =>
    intro k hk
    obtain ⟨hfc, hpen⟩ := hk
    have hfc3 : amem (aerase c.fileCache key) k = true := hfc
    have hpen2 : amem c.pending k = true := hpen
    exact h k ⟨amem_aerase_imp _ _ _ hfc3, hpen2⟩
  | none => intro k hk; exact h k ⟨hk.1, hk.2⟩

/-- Reachable states under sequences of `Cache` operations in which
`get_or_create_pending` is only invoked for a key that is not currently
in the completed store. -/
inductive ReachG : CacheState → Prop
  | init (maxSize ttl nfTtl : Int) : ReachG (cacheInit maxSize ttl nfTtl)
  | step (c : CacheState) (op : CacheOp) : ReachG c →
      (∀ k ok, op = CacheOp.getOrCreatePending k ok →
        amem c.fileCache k = false) →
      ReachG (applyOp c op)

/-- C4 (amended): under any sequence of cache operations in which
`get_or_create_pending` is only called for keys absent from the
completed store, every key is present in at most one of the completed
store and the pending map.  (The unguarded claim is refuted by
`C4_counterexample`.) -/
theorem C4_amended_exclusivity (c : CacheState) (h : ReachG c) :
    ∀ k : String, ¬(amem c.fileCache k = true ∧ amem c.pending k = true) := by
  induction h with
  | init maxSize ttl nfTtl =>
    intro k hk
    simp [cacheInit, amem, alookup] at hk
  | step c2 op hreach hguard ih =>
    cases op with
    | get k now => exact exclusive_Get c2 ih k now
    | getOrCreatePending k ok =>
      exact exclusive_GetOrCreatePending c2 ih k ok (hguard k ok rfl)
    | completePending k sz ct now => exact exclusive_CompletePending c2 ih k sz ct now
    | failPending k => exact exclusive_FailPending c2 ih k
    | remove k => exact exclusive_Remove c2 ih k

/-- The state after `get_or_create_pending(k)`, `complete_pending(k)`,
`get_or_create_pending(k)` from an empty cache. -/
def c4Scenario : CacheState :=
  applyOp (applyOp (applyOp (cacheInit 100 10 5)
    (CacheOp.getOrCreatePending "k" true))
    (CacheOp.completePending "k" 5 "text/plain" 0))
    (CacheOp.getOrCreatePending "k" true)

/-- C4 counterexample: the claim quantifies over *any* sequence of cache
operations, but `GetOrCreatePending` never consults the completed store,
so after completing a key a further `get_or_create_pending` puts the key
into the pending map while it is still in the completed store: the key
is in both at once. -/
theorem C4_counterexample :
    amem c4Scenario.fileCache "k" = true ∧ amem c4Scenario.pending "k" = true := by
  decide

/-- Witness for C4 (amended) on a concrete guarded operation sequence. -/
theorem C4_amended_exclusivity_witness :
    ¬(amem (applyOp (cacheInit 100 10 5)
        (CacheOp.getOrCreatePending "k" true)).fileCache "k" = true ∧
      amem (applyOp (cacheInit 100 10 5)
        (CacheOp.getOrCreatePending "k" true)).pending "k" = true) :=
  C4_amended_exclusivity _
    (ReachG.step _ _ (ReachG.init 100 10 5) (fun _ _ _ => rfl)) "k"

/-! ## Index persistence (`saveIndex` / `loadAndCleanup` in `cache.go`)

`saveIndex` serializes the completed entries to `index.json.tmp` and
renames it over `index.json`; the JSON round-trip of the entry list is
modelled as the list itself reaching disk intact.  `loadAndCleanup`
re-stats every entry at startup and drops the stale ones, then unlinks
orphan files. -/

/-- `saveIndex`: the persisted index is the list of completed entries
(`Keys` in LRU order, `Peek` for each). -/
def saveIndex (c : CacheState) : List CacheEntry :=
  c.fileCache.map (fun e => e.2.1)

/-- State accumulated while loading the index at startup. -/
structure LoadResult where
  fileCache : List (String × CacheEntry × Int)
  totalSize : Int
  fs : List (String × Int)
  validFiles : List String
  deriving DecidableEq

/-- The entry loop of `loadAndCleanup`: `stat` each entry's backing
file; if missing or of the wrong size, unlink it and drop the entry;
otherwise install the entry in the LRU, count its size and remember the
file as valid.  The accumulators are the four components of
`LoadResult`. -/
def loadEntries (now ttl : Int) :
    List CacheEntry → List (String × CacheEntry × Int) → Int →
    List (String × Int) → List String → LoadResult
  | [], fc, total, fs, valid => ⟨fc, total, fs, valid⟩
  | e :: rest, fc, total, fs, valid =>
    match alookup fs e.filePath with
    | some sz =>
      if sz = e.size then
        loadEntries now ttl rest (lruAdd fc e.key (e, now + ttl) 0)
          (total + e.size) fs (valid ++ [e.filePath])
      else loadEntries now ttl rest fc total (aerase fs e.filePath) valid
    | none => loadEntries now ttl rest fc total (aerase fs e.filePath) valid

/-- `cleanupOrphanFiles`: unlink every cache file that does not belong
to a valid loaded entry (the index files live outside this model of the
cache-content filesystem). -/
def cleanupOrphanFiles (fs : List (String × Int)) (validFiles : List String) :
    List (String × Int) :=
  fs.filter (fun e => validFiles.contains e.1)

/-- `loadAndCleanup`: load the persisted entries against the on-disk
state, then clean orphans. -/
def loadAndCleanup (entries : List CacheEntry) (fs : List (String × Int))
    (now ttl : Int) : LoadResult :=
  let r := loadEntries now ttl entries [] 0 fs []
  { r with fs := cleanupOrphanFiles r.fs r.validFiles }

theorem alookup_aerase_none {α : Type} (l : List (String × α)) (k p : String)
    (h : alookup l p = none) : alookup (aerase l k) p = none := by
  by_cases hp : p = k
  · subst hp; exact alookup_aerase_self l p
  · rwa [alookup_aerase_ne _ _ _ hp]

theorem alookup_filter_none {α : Type} (l : List (String × α))
    (p : String × α → Bool) (k : String) (h : alookup l k = none) :
    alookup (l.filter p) k = none := by
  induction l with
  | nil => simp [alookup]
  | cons e rest ih =>
    obtain ⟨q, v⟩ := e
    simp only [alookup] at h
    split at h
    · simp at h
    · rename_i hq
      simp only [List.filter_cons]
      split
      · simp only [alookup, if_neg hq]
        exact ih h
      · exact ih h

/-- `lruAdd` with another key does not change a lookup. -/
theorem alookup_lruAdd_ne {α : Type} (l : List (String × α)) (k2 : String)
    (v : α) (k : String) (h : k ≠ k2) :
    alookup (lruAdd l k2 v 0) k = alookup l k := by
  simp only [lruAdd, ne_eq, not_true_eq_false, false_and, if_false]
  rw [alookup_append]
  cases hl : alookup (aerase l k2) k with
  | some w => rw [alookup_aerase_ne _ _ _ h] at hl; simp [hl]
  | none =>
    rw [alookup_aerase_ne _ _ _ h] at hl
    have hne : k2 ≠ k := fun hc => h hc.symm
    simp only [hl, alookup, if_neg hne]

theorem loadEntries_fs_none (now ttl : Int) (entries : List CacheEntry)
    (fc : List (String × CacheEntry × Int)) (total : Int)
    (fs : List (String × Int)) (valid : List String) (p : String)
    (h : alookup fs p = none) :
    alookup (loadEntries now ttl entries fc total fs valid).fs p = none := by
  induction entries generalizing fc total fs valid with
  | nil => simpa [loadEntries] using h
  | cons e rest ih =>
    simp only [loadEntries]
    split
    · split
      · exact ih _ _ _ _ h
      · exact ih _ _ _ _ (alookup_aerase_none _ _ _ h)
    · exact ih _ _ _ _ (alookup_aerase_none _ _ _ h)

theorem loadEntries_fileCache_other (now ttl : Int) (entries : List CacheEntry)
    (fc : List (String × CacheEntry × Int)) (total : Int)
    (fs : List (String × Int)) (valid : List String) (k : String)
    (h : k ∉ entries.map (fun e => e.key)) :
    alookup (loadEntries now ttl entries fc total fs valid).fileCache k =
      alookup fc k := by
  induction entries generalizing fc total fs valid with
  | nil => rfl
  | cons e rest ih =>
    simp only [List.map_cons, List.mem_cons, not_or] at h
    obtain ⟨hk, hrest⟩ := h
    simp only [loadEntries]
    split
    · split
      · rw [ih _ _ _ _ hrest]
        exact alookup_lruAdd_ne _ _ _ _ hk
      · exact ih _ _ _ _ hrest
    · exact ih _ _ _ _ hrest

theorem loadEntries_fs_other (now ttl : Int) (entries : List CacheEntry)
    (fc : List (String × CacheEntry × Int)) (total : Int)
    (fs : List (String × Int)) (valid : List String) (p : String)
    (h : p ∉ entries.map (fun e => e.filePath)) :
    alookup (loadEntries now ttl entries fc total fs valid).fs p =
      alookup fs p := by
  induction entries generalizing fc total fs valid with
  | nil => rfl
  | cons e rest ih =>
    simp only [List.map_cons, List.mem_cons, not_or] at h
    obtain ⟨hp, hrest⟩ := h
    simp only [loadEntries]
    split
    · split
      · exact ih _ _ _ _ hrest
      · rw [ih _ _ _ _ hrest]
        exact alookup_aerase_ne _ _ _ hp
    · rw [ih _ _ _ _ hrest]
      exact alookup_aerase_ne _ _ _ hp

theorem loadEntries_kept (now ttl : Int) (entries : List CacheEntry)
    (fc : List (String × CacheEntry × Int)) (total : Int)
    (fs : List (String × Int)) (valid : List String)
    (hkeys : (entries.map (fun e => e.key)).Nodup)
    (hpaths : (entries.map (fun e => e.filePath)).Nodup) :
    ∀ e ∈ entries, alookup fs e.filePath = some e.size →
      alookup (loadEntries now ttl entries fc total fs valid).fileCache e.key =
        some (e, now + ttl) := by
  induction entries generalizing fc total fs valid with
  | nil => intro e he; simp at he
  | cons e0 rest ih =>
    intro e he hstat
    simp only [List.map_cons, List.nodup_cons] at hkeys hpaths
    obtain ⟨hk0, hkeys2⟩ := hkeys
    obtain ⟨hp0, hpaths2⟩ := hpaths
    rcases List.mem_cons.mp he with rfl | he2
    · simp only [loadEntries, hstat]
      rw [if_pos trivial]
      rw [loadEntries_fileCache_other now ttl rest _ _ _ _ _ (by simpa using hk0)]
      exact alookup_lruAdd_self _ _ _ _
    · have hpne : e.filePath ≠ e0.filePath := by
        intro hc
        exact hp0 (hc ▸ List.mem_map_of_mem (fun x => x.filePath) he2)
      simp only [loadEntries]
      split
      · split
        · exact ih _ _ _ _ hkeys2 hpaths2 e he2 hstat
        · exact ih _ _ _ _ hkeys2 hpaths2 e he2
            (by rw [alookup_aerase_ne _ _ _ hpne]; exact hstat)
      · exact ih _ _ _ _ hkeys2 hpaths2 e he2
          (by rw [alookup_aerase_ne _ _ _ hpne]; exact hstat)

theorem loadEntries_dropped (now ttl : Int) (entries : List CacheEntry)
    (fc : List (String × CacheEntry × Int)) (total : Int)
    (fs : List (String × Int)) (valid : List String)
    (hkeys : (entries.map (fun e => e.key)).Nodup)
    (hpaths : (entries.map (fun e => e.filePath)).Nodup) :
    ∀ e ∈ entries, alookup fs e.filePath ≠ some e.size →
      alookup (loadEntries now ttl entries fc total fs valid).fileCache e.key =
        alookup fc e.key ∧
      alookup (loadEntries now ttl entries fc total fs valid).fs e.filePath =
        none := by
  induction entries generalizing fc total fs valid with
  | nil => intro e he; simp at he
  | cons e0 rest ih =>
    intro e he hstat
    simp only [List.map_cons, List.nodup_cons] at hkeys hpaths
    obtain ⟨hk0, hkeys2⟩ := hkeys
    obtain ⟨hp0, hpaths2⟩ := hpaths
    rcases List.mem_cons.mp he with rfl | he2
    · cases hst : alookup fs e.filePath with
      | some sz =>
        have hne : ¬sz = e.size := fun hc => hstat (by rw [hst, hc])
        simp only [loadEntries, hst]
        rw [if_neg hne]
        refine ⟨?_, ?_⟩
        · exact loadEntries_fileCache_other now ttl rest _ _ _ _ _
            (by simpa using hk0)
        · exact loadEntries_fs_none _ _ _ _ _ _ _ _ (alookup_aerase_self _ _)
      | none =>
        simp only [loadEntries, hst]
        refine ⟨?_, ?_⟩
        · exact loadEntries_fileCache_other now ttl rest _ _ _ _ _
            (by simpa using hk0)
        · exact loadEntries_fs_none _ _ _ _ _ _ _ _ (alookup_aerase_self _ _)
    · have hkne : e.key ≠ e0.key := by
        intro hc
        exact hk0 (hc ▸ List.mem_map_of_mem (fun x => x.key) he2)
      have hpne : e.filePath ≠ e0.filePath := by
        intro hc
        exact hp0 (hc ▸ List.mem_map_of_mem (fun x => x.filePath) he2)
      simp only [loadEntries]
      split
      · split
        · obtain ⟨ha, hb⟩ := ih _ _ _ _ hkeys2 hpaths2 e he2 hstat
          refine ⟨?_, hb⟩
          rw [ha]
          exact alookup_lruAdd_ne _ _ _ _ hkne
        · exact ih _ _ _ _ hkeys2 hpaths2 e he2
            (by rw [alookup_aerase_ne _ _ _ hpne]; exact hstat)
      · exact ih _ _ _ _ hkeys2 hpaths2 e he2
          (by rw [alookup_aerase_ne _ _ _ hpne]; exact hstat)

theorem loadEntries_totalSize (now ttl : Int) (entries : List CacheEntry)
    (fc : List (String × CacheEntry × Int)) (total : Int)
    (fs : List (String × Int)) (valid : List String)
    (hpaths : (entries.map (fun e => e.filePath)).Nodup) :
    (loadEntries now ttl entries fc total fs valid).totalSize =
      total + ((entries.filter
        (fun e => alookup fs e.filePath == some e.size)).map
          (fun e => e.size)).sum := by
  induction entries generalizing fc total fs valid with
  | nil => simp [loadEntries]
  | cons e0 rest ih =>
    simp only [List.map_cons, List.nodup_cons] at hpaths
    obtain ⟨hp0, hpaths2⟩ := hpaths
    have hfix :
        List.filter (fun e => alookup (aerase fs e0.filePath) e.filePath ==
          some e.size) rest =
        List.filter (fun e => alookup fs e.filePath == some e.size) rest := by
      refine List.filter_congr (fun x hx => ?_)
      have hpne : x.filePath ≠ e0.filePath := by
        intro hc
        exact hp0 (hc ▸ List.mem_map_of_mem (fun y => y.filePath) hx)
      rw [alookup_aerase_ne _ _ _ hpne]
    cases hst : alookup fs e0.filePath with
    | some sz =>
      by_cases hsz : sz = e0.size
      · simp only [loadEntries, hst]
        rw [if_pos hsz]
        rw [ih _ _ _ _ hpaths2]
        have hpred : (alookup fs e0.filePath == some e0.size) = true := by
          rw [hst, hsz]
          simp
        rw [List.filter_cons, hpred]
        simp only [if_true, List.map_cons, List.sum_cons]
        ring
      · simp only [loadEntries, hst]
        rw [if_neg hsz]
        rw [ih _ _ _ _ hpaths2, hfix]
        have hpred : (alookup fs e0.filePath == some e0.size) = false := by
          rw [hst]
          simp only [beq_eq_false_iff_ne, ne_eq, Option.some.injEq]
          exact hsz
        rw [List.filter_cons, hpred]
        simp
    | none =>
      simp only [loadEntries, hst]
      rw [ih _ _ _ _ hpaths2, hfix]
      have hpred : (alookup fs e0.filePath == some e0.size) = false := by
        rw [hst]
        simp
      rw [List.filter_cons, hpred]
      simp

/-- C7: round trip through index persistence.  After saving the index
and reloading it at startup against an arbitrary on-disk state `fs`:
every saved entry whose backing file still exists with a matching size
is present again with the same `size` and `content_type` (the whole
entry, including both fields, is restored); entries whose file is
missing or whose size differs are dropped and their file unlinked; and
`total_size` is the sum of the sizes of the loaded entries.  The key
hypotheses record that the LRU holds each key once and that the
SHA-256-derived file paths are distinct. -/
theorem C7_index_roundtrip (c : CacheState) (fs : List (String × Int))
    (now ttl : Int)
    (hkeys : ((saveIndex c).map (fun e => e.key)).Nodup)
    (hpaths : ((saveIndex c).map (fun e => e.filePath)).Nodup) :
    (∀ e ∈ saveIndex c, alookup fs e.filePath = some e.size →
      alookup (loadAndCleanup (saveIndex c) fs now ttl).fileCache e.key =
        some (e, now + ttl)) ∧
    (∀ e ∈ saveIndex c, alookup fs e.filePath ≠ some e.size →
      alookup (loadAndCleanup (saveIndex c) fs now ttl).fileCache e.key = none ∧
      alookup (loadAndCleanup (saveIndex c) fs now ttl).fs e.filePath = none) ∧
    (loadAndCleanup (saveIndex c) fs now ttl).totalSize =
      (((saveIndex c).filter
        (fun e => alookup fs e.filePath == some e.size)).map
          (fun e => e.size)).sum := by
  refine ⟨?_, ?_, ?_⟩
  · intro e he hstat
    exact loadEntries_kept now ttl _ [] 0 fs [] hkeys hpaths e he hstat
  · intro e he hstat
    obtain ⟨ha, hb⟩ :=
      loadEntries_dropped now ttl _ [] 0 fs [] hkeys hpaths e he hstat
    exact ⟨ha, alookup_filter_none _ _ _ hb⟩
  · have h := loadEntries_totalSize now ttl (saveIndex c) [] 0 fs [] hpaths
    rw [zero_add] at h
    exact h

/-- Witness for C7: a store with two completed entries, a disk on which
the first file is intact and the second has the wrong size. -/
theorem C7_index_roundtrip_witness :
    (alookup (loadAndCleanup (saveIndex
        { maxCacheSize := 100, defaultCacheTTL := 10, notFoundCacheTTL := 5,
          fileCache :=
            [("a", { key := "a", filePath := "cache/a", size := 3,
                     contentType := "text/plain", createdAt := 0 }, 50),
             ("b", { key := "b", filePath := "cache/b", size := 4,
                     contentType := "text/css", createdAt := 0 }, 50)],
          notFoundCache := [], totalSize := 7, pending := [],
          fs := [("cache/a", 3), ("cache/b", 4)] })
        [("cache/a", 3), ("cache/b", 9)] 100 10).fileCache "a" =
      some ({ key := "a", filePath := "cache/a", size := 3,
              contentType := "text/plain", createdAt := 0 }, 110)) ∧
    (alookup (loadAndCleanup (saveIndex
        { maxCacheSize := 100, defaultCacheTTL := 10, notFoundCacheTTL := 5,
          fileCache :=
            [("a", { key := "a", filePath := "cache/a", size := 3,
                     contentType := "text/plain", createdAt := 0 }, 50),
             ("b", { key := "b", filePath := "cache/b", size := 4,
                     contentType := "text/css", createdAt := 0 }, 50)],
          notFoundCache := [], totalSize := 7, pending := [],
          fs := [("cache/a", 3), ("cache/b", 4)] })
        [("cache/a", 3), ("cache/b", 9)] 100 10).fileCache "b" = none) := by
  have h := C7_index_roundtrip
    { maxCacheSize := 100, defaultCacheTTL := 10, notFoundCacheTTL := 5,
      fileCache :=
        [("a", { key := "a", filePath := "cache/a", size := 3,
                 contentType := "text/plain", createdAt := 0 }, 50),
         ("b", { key := "b", filePath := "cache/b", size := 4,
                 contentType := "text/css", createdAt := 0 }, 50)],
      notFoundCache := [], totalSize := 7, pending := [],
      fs := [("cache/a", 3), ("cache/b", 4)] }
    [("cache/a", 3), ("cache/b", 9)] 100 10 (by decide) (by decide)
  refine ⟨?_, ?_⟩
  · exact h.1 ⟨"a", "cache/a", 3, "text/plain", 0⟩ (by decide) (by decide)
  · exact (h.2.1 ⟨"b", "cache/b", 4, "text/css", 0⟩ (by decide) (by decide)).1

theorem aerase_of_not_mem {α : Type} (l : List (String × α)) (k : String)
    (h : amem l k = false) : aerase l k = l := by
  induction l with
  | nil => rfl
  | cons e rest ih =>
    obtain ⟨p, v⟩ := e
    unfold amem alookup at h
    split at h
    · simp at h
    · rename_i hp
      simp only [aerase, List.filter_cons]
      rw [if_pos (by simpa using hp)]
      rw [← aerase]
      rw [ih h]

theorem amem_append_false_right {α : Type} (l1 l2 : List (String × α))
    (k : String) (h : amem (l1 ++ l2) k = false) : amem l2 k = false := by
  unfold amem at h ⊢
  rw [alookup_append] at h
  cases hl : alookup l1 k with
  | some v => rw [hl] at h; simp at h
  | none => rw [hl] at h; exact h

theorem lruAdd_zero {α : Type} (l : List (String × α)) (k : String) (v : α) :
    lruAdd l k v 0 = aerase l k ++ [(k, v)] := by
  simp [lruAdd]

/-- C8: on `complete_pending(key, size, content_type)`, while
`total_size + size > max_size` the least-recently-used completed entry
is evicted — each eviction unlinking its backing file and decrementing
`total_size` by that entry's size; if the completed LRU empties the loop
stops and the new entry is admitted anyway, so the size bound is a soft
target, not a hard cap. -/
theorem C8_complete_pending_eviction (c : CacheState) (key : String)
    (size : Int) (ct : String) (now : Int) (sf : StreamingFile)
    (hpend : alookup c.pending key = some sf)
    (hnotin : amem c.fileCache key = false) :
    ∃ evicted remaining,
      c.fileCache = evicted ++ remaining ∧
      (c.CompletePending key size ct now).fileCache =
        remaining ++
          [(key, ({ key := key, filePath := filePath key, size := size,
                    contentType := ct, createdAt := now } : CacheEntry),
            now + c.defaultCacheTTL)] ∧
      (c.CompletePending key size ct now).totalSize =
        c.totalSize - (evicted.map (fun e => e.2.1.size)).sum + size ∧
      (c.CompletePending key size ct now).fs =
        evicted.foldl (fun acc e => aerase acc e.2.1.filePath) c.fs ∧
      (c.totalSize - (evicted.map (fun e => e.2.1.size)).sum + size ≤
          c.maxCacheSize ∨ remaining = []) ∧
      (∀ j, j < evicted.length →
        c.totalSize - ((evicted.take j).map (fun e => e.2.1.size)).sum + size >
          c.maxCacheSize) ∧
      alookup (c.CompletePending key size ct now).fileCache key =
        some ({ key := key, filePath := filePath key, size := size,
                contentType := ct, createdAt := now }, now + c.defaultCacheTTL) := by
  obtain ⟨ev, h1, h2, h3, h4, h5⟩ :=
    evictIfNeeded_spec size c.maxCacheSize c.fileCache c.totalSize c.fs
  have hremain : amem (evictIfNeeded size c.maxCacheSize c.fileCache
      c.totalSize c.fs).1 key = false := by
    apply amem_append_false_right ev
    rw [← h1]
    exact hnotin
  have hfc : (c.CompletePending key size ct now).fileCache =
      lruAdd (evictIfNeeded size c.maxCacheSize c.fileCache c.totalSize c.fs).1
        key ({ key := key, filePath := filePath key, size := size,
               contentType := ct, createdAt := now }, now + c.defaultCacheTTL) 0 := by
    unfold CacheState.CompletePending
    rw [hpend]
  have hts : (c.CompletePending key size ct now).totalSize =
      (evictIfNeeded size c.maxCacheSize c.fileCache c.totalSize c.fs).2.1 +
        size := by
    unfold CacheState.CompletePending
    rw [hpend]
  have hfs : (c.CompletePending key size ct now).fs =
      (evictIfNeeded size c.maxCacheSize c.fileCache c.totalSize c.fs).2.2 := by
    unfold CacheState.CompletePending
    rw [hpend]
  refine ⟨ev, (evictIfNeeded size c.maxCacheSize c.fileCache c.totalSize c.fs).1,
    h1, ?_, ?_, ?_, ?_, h5, ?_⟩
  · rw [hfc, lruAdd_zero, aerase_of_not_mem _ _ hremain]
  · rw [hts, h2]
  · rw [hfs, h3]
  · rw [h2] at h4
    exact h4
  · rw [hfc]
    exact alookup_lruAdd_self _ _ _ _

/-- The concrete cache for the C8 witness: total 9 of max 10, two
completed entries (oldest of size 6), key `k` pending; completing `k`
with size 5 must evict the oldest entry and admit the new one. -/
def c8Cache : CacheState :=
  { maxCacheSize := 10, defaultCacheTTL := 10, notFoundCacheTTL := 5,
    fileCache := [("old1", { key := "old1", filePath := "cache/old1", size := 6,
                             contentType := "t", createdAt := 0 }, 50),
                  ("old2", { key := "old2", filePath := "cache/old2", size := 3,
                             contentType := "t", createdAt := 0 }, 50)],
    notFoundCache := [], totalSize := 9,
    pending := [("k", NewStreamingFile)],
    fs := [("cache/old1", 6), ("cache/old2", 3), ("cache/k", 0)] }

/-- Witness for C8 at `c8Cache`: complete the pending key `k` with
size 5. -/
theorem C8_complete_pending_eviction_witness :
    ∃ evicted remaining,
      c8Cache.fileCache = evicted ++ remaining ∧
      (c8Cache.CompletePending "k" 5 "t" 0).fileCache =
        remaining ++
          [("k", ({ key := "k", filePath := filePath "k", size := 5,
                    contentType := "t", createdAt := 0 } : CacheEntry),
            0 + c8Cache.defaultCacheTTL)] ∧
      (c8Cache.CompletePending "k" 5 "t" 0).totalSize =
        c8Cache.totalSize - (evicted.map (fun e => e.2.1.size)).sum + 5 ∧
      (c8Cache.CompletePending "k" 5 "t" 0).fs =
        evicted.foldl (fun acc e => aerase acc e.2.1.filePath) c8Cache.fs ∧
      (c8Cache.totalSize - (evicted.map (fun e => e.2.1.size)).sum + 5 ≤
          c8Cache.maxCacheSize ∨ remaining = []) ∧
      (∀ j, j < evicted.length →
        c8Cache.totalSize - ((evicted.take j).map (fun e => e.2.1.size)).sum + 5 >
          c8Cache.maxCacheSize) ∧
      alookup (c8Cache.CompletePending "k" 5 "t" 0).fileCache "k" =
        some ({ key := "k", filePath := filePath "k", size := 5,
                contentType := "t", createdAt := 0 }, 0 + c8Cache.defaultCacheTTL) :=
  C8_complete_pending_eviction c8Cache "k" 5 "t" 0 NewStreamingFile
    (by decide) (by decide)

/-! ## Serving from a pending StreamingFile (`serveFromStreaming`) -/

/-- An HTTP response as shaped by the proxy: status, the headers the
proxy sets explicitly, the body bytes written, and whether the handler
returned a non-nil error. -/
structure Response where
  status : Nat
  headers : List (String × String)
  body : List Nat
  errored : Bool
  deriving DecidableEq

/-- Translated from `serveFromStreaming`: set `X-Cache: STREAMING`; for
HEAD stop; for GET open a reader on the StreamingFile and copy chunk by
chunk until EOF (writer completed) or a reader error (abort), flushing
after each chunk.  The chunk sequence the reader delivers and whether
it ends in an error instead of EOF are inputs of the model. -/
def serveFromStreaming (method : String) (reads : List (List Nat))
    (readErr : Bool) : Response :=
  let headers := [("X-Cache", "STREAMING")]
  if method = "HEAD" then
    { status := 200, headers := headers, body := [], errored := false }
  else
    { status := 200, headers := headers, body := reads.flatten, errored := readErr }

/-- C10: on the STREAMING path the only header the proxy sets is
`X-Cache: STREAMING`; in particular no `Content-Type`, no
`Accept-Ranges` and no `Content-Length` is set, for GET and HEAD alike
and regardless of what the reader delivers. -/
theorem C10_streaming_sets_only_xcache (method : String)
    (reads : List (List Nat)) (readErr : Bool) :
    (serveFromStreaming method reads readErr).headers =
      [("X-Cache", "STREAMING")] ∧
    alookup (serveFromStreaming method reads readErr).headers
      "Content-Type" = none ∧
    alookup (serveFromStreaming method reads readErr).headers
      "Accept-Ranges" = none ∧
    alookup (serveFromStreaming method reads readErr).headers
      "Content-Length" = none := by
  unfold serveFromStreaming
  by_cases h : method = "HEAD" <;> simp [h, alookup]

/-! ## The upstream fetch path (`doFetchAndServe`)

The upstream exchange (status, `Content-Length`, `Content-Type`, the
chunked body and the outcome of each chunk's two writes) is an explicit
input.  The fetcher's StreamingFile is the one in the pending map; its
writes update the map entry. -/

/-- One chunk iteration of the GET body copy: the bytes read from the
upstream body, whether the `sf.Write` into the cache file succeeds, and
whether the write to the client succeeds. -/
structure ChunkStep where
  chunk : List Nat
  sfWriteOk : Bool
  clientWriteOk : Bool
  deriving DecidableEq

/-- An upstream response as `doFetchAndServe` consumes it
(`contentLength = -1` models an absent `Content-Length`; `readErr`
models a non-EOF error ending the body). -/
structure UpstreamResp where
  status : Nat
  contentLength : Int
  contentType : String
  chunks : List ChunkStep
  readErr : Bool
  deriving DecidableEq

/-- Result of `doFetchAndServe`: the response, the cache afterwards, and
which of `FailPending` / `CompletePending` the fetcher invoked. -/
structure FetchResult where
  resp : Response
  cache : CacheState
  failPendingCalled : Bool
  completePendingCalled : Bool
  deriving DecidableEq

/-- The chunk loop of `doFetchAndServe`: while `isNew` holds, each chunk
is written into the StreamingFile first — a failed cache write logs a
warning, sets `isNew = false` (stop populating the cache) and keeps
serving; then the chunk is written to the client and flushed, a failure
there breaking the loop with a download error.  Returns the cache (with
the StreamingFile in the pending map updated), the final `isNew`, the
total bytes written to the client, the body, and the download-error
flag. -/
def fetchLoop (key : String) :
    List ChunkStep → CacheState → Bool → Int → List Nat →
    CacheState × Bool × Int × List Nat × Bool
  | [], c, isNew, tw, body => (c, isNew, tw, body, false)
  | step :: rest, c, isNew, tw, body =>
    let wres :=
      if isNew then
        match alookup c.pending key with
        | some sf =>
          let w := sf.writeOp step.chunk
            (if step.sfWriteOk then step.chunk.length else 0) step.sfWriteOk
          ({ c with pending := aset c.pending key w.1 }, step.sfWriteOk)
        | none => (c, true)
      else (c, true)
    if step.clientWriteOk then
      fetchLoop key rest wres.1 (isNew && wres.2)
        (tw + step.chunk.length) (body ++ step.chunk)
    else (wres.1, isNew && wres.2, tw, body, true)

/-- Translated from `doFetchAndServe`, for a request that has already
passed the fetch-lock and pending checks of `fetchAndServe` and issued
the upstream GET.  404 → negative-cache the key and respond 404;
other non-200 → 502; on 200: default the content type,
`GetOrCreatePending`, write the MISS headers (`Content-Length` iff the
upstream length is known), discard a newly created pending entry on
HEAD, and for GET run the chunk loop and the terminal disposition
(fail on download error or size mismatch, else complete — each only
when `isNew` still holds). -/
def doFetchAndServe (c : CacheState) (key : String) (method : String)
    (up : UpstreamResp) (now : Int) : FetchResult :=
  if up.status = 404 then
    { resp := { status := 404, headers := [], body := [], errored := false },
      cache := c.PutNotFound key now,
      failPendingCalled := false, completePendingCalled := false }
  else if up.status ≠ 200 then
    { resp := { status := 502, headers := [], body := [], errored := true },
      cache := c, failPendingCalled := false, completePendingCalled := false }
  else
    let contentType :=
      if up.contentType = "" then "application/octet-stream" else up.contentType
    let g := c.GetOrCreatePending key true
    match g.1 with
    | none =>
      { resp := { status := 500, headers := [], body := [], errored := true },
        cache := g.2, failPendingCalled := false, completePendingCalled := false }
    | some (_, isNew) =>
      let c1 := g.2
      let headers :=
        [("Content-Type", contentType), ("Accept-Ranges", "bytes")] ++
        (if up.contentLength ≥ 0 then
          [("Content-Length", toString up.contentLength)] else []) ++
        [("X-Cache", "MISS")]
      if method = "HEAD" then
        if isNew then
          { resp := { status := 200, headers := headers, body := [],
                      errored := false },
            cache := c1.FailPending key,
            failPendingCalled := true, completePendingCalled := false }
        else
          { resp := { status := 200, headers := headers, body := [],
                      errored := false },
            cache := c1, failPendingCalled := false,
            completePendingCalled := false }
      else
        let res := fetchLoop key up.chunks c1 isNew 0 []
        let c2 := res.1
        let isNew2 := res.2.1
        let tw := res.2.2.1
        let body := res.2.2.2.1
        let dlErr := res.2.2.2.2 || up.readErr
        if dlErr then
          if isNew2 then
            { resp := { status := 200, headers := headers, body := body,
                        errored := true },
              cache := c2.FailPending key,
              failPendingCalled := true, completePendingCalled := false }
          else
            { resp := { status := 200, headers := headers, body := body,
                        errored := true },
              cache := c2, failPendingCalled := false,
              completePendingCalled := false }
        else if up.contentLength ≥ 0 ∧ tw ≠ up.contentLength then
          if isNew2 then
            { resp := { status := 200, headers := headers, body := body,
                        errored := true },
              cache := c2.FailPending key,
              failPendingCalled := true, completePendingCalled := false }
          else
            { resp := { status := 200, headers := headers, body := body,
                        errored := true },
              cache := c2, failPendingCalled := false,
              completePendingCalled := false }
        else
          if isNew2 then
            { resp := { status := 200, headers := headers, body := body,
                        errored := false },
              cache := c2.CompletePending key tw contentType now,
              failPendingCalled := false, completePendingCalled := true }
          else
            { resp := { status := 200, headers := headers, body := body,
                        errored := false },
              cache := c2, failPendingCalled := false,
              completePendingCalled := false }

/-- With `isNew = false` and a client that accepts every write, the
chunk loop leaves the cache untouched and streams the whole upstream
body to the client. -/
theorem fetchLoop_not_new (key : String) (chunks : List ChunkStep)
    (c : CacheState) (tw : Int) (body : List Nat)
    (hok : ∀ step ∈ chunks, step.clientWriteOk = true) :
    fetchLoop key chunks c false tw body =
      (c, false, tw + ((chunks.map (fun s => s.chunk.length)).sum : Int),
        body ++ (chunks.map (fun s => s.chunk)).flatten, false) := by
  induction chunks generalizing c tw body with
  | nil => simp [fetchLoop]
  | cons step rest ih =>
    have hstep : step.clientWriteOk = true := hok step (List.mem_cons_self _ _)
    have hrest : ∀ s ∈ rest, s.clientWriteOk = true :=
      fun s hs => hok s (List.mem_cons_of_mem _ hs)
    simp only [fetchLoop, Bool.false_eq_true, if_false, hstep, if_true,
      Bool.false_and]
    rw [ih _ _ _ hrest]
    simp only [Prod.mk.injEq, List.map_cons, List.sum_cons, List.flatten_cons,
      List.append_assoc, and_true, true_and]
    ring

/-- `X-Cache: MISS` is among the MISS-path headers whatever the
`Content-Length` situation. -/
theorem miss_headers_xcache (ct : String) (cl : Int) :
    alookup ([("Content-Type", ct), ("Accept-Ranges", "bytes")] ++
      (if cl ≥ 0 then [("Content-Length", toString cl)] else []) ++
      [("X-Cache", "MISS")]) "X-Cache" = some "MISS" := by
  split <;> simp [alookup]

/-- C2 counterexample: the upstream 200 arrives while the key is already
pending (`is_new = false`); the claim says the fetcher abandons its own
response and serves as §4.5 with `X-Cache: STREAMING`, but it responds
with its own upstream body under `X-Cache: MISS`. -/
theorem C2_counterexample :
    alookup (doFetchAndServe
        ((cacheInit 100 10 5).GetOrCreatePending "k" true).2 "k" "GET"
        { status := 200, contentLength := 3, contentType := "t",
          chunks := [{ chunk := [1, 2, 3], sfWriteOk := true,
                       clientWriteOk := true }],
          readErr := false } 0).resp.headers "X-Cache" = some "MISS" ∧
    (doFetchAndServe
        ((cacheInit 100 10 5).GetOrCreatePending "k" true).2 "k" "GET"
        { status := 200, contentLength := 3, contentType := "t",
          chunks := [{ chunk := [1, 2, 3], sfWriteOk := true,
                       clientWriteOk := true }],
          readErr := false } 0).resp.body = [1, 2, 3] := by
  decide

/-- C2 (amended): on a 200 upstream response the fetcher calls
`get_or_create_pending(key)`, and when it receives `is_new = false` it
does *not* abandon its own upstream response: it streams its own
upstream body to its client under the MISS headers
(`X-Cache: MISS`), never writes into the pending StreamingFile (the
pending map is untouched), and neither fails nor completes the pending
entry. -/
theorem C2_amended_keeps_own_response (c : CacheState) (key : String)
    (up : UpstreamResp) (now : Int) (sf : StreamingFile)
    (hpend : alookup c.pending key = some sf)
    (hstatus : up.status = 200)
    (hok : ∀ step ∈ up.chunks, step.clientWriteOk = true) :
    alookup (doFetchAndServe c key "GET" up now).resp.headers "X-Cache" =
      some "MISS" ∧
    (doFetchAndServe c key "GET" up now).resp.body =
      (up.chunks.map (fun s => s.chunk)).flatten ∧
    (doFetchAndServe c key "GET" up now).cache.pending = c.pending ∧
    (doFetchAndServe c key "GET" up now).failPendingCalled = false ∧
    (doFetchAndServe c key "GET" up now).completePendingCalled = false := by
  unfold doFetchAndServe
  rw [hstatus]
  simp only [CacheState.GetOrCreatePending, hpend]
  rw [if_neg (by decide : ¬(200 : Nat) = 404), if_neg (by simp)]
  rw [if_neg (by decide : ¬("GET" : String) = "HEAD")]
  rw [fetchLoop_not_new key up.chunks c 0 [] hok]
  simp only [Bool.false_or, Bool.false_eq_true, if_false]
  cases hre : up.readErr with
  | true =>
    simp only [if_true]
    exact ⟨miss_headers_xcache _ _, by trivial,
      by trivial, by trivial,
      by trivial⟩
  | false =>
    simp only [Bool.false_eq_true, if_false]
    by_cases hmis : up.contentLength ≥ 0 ∧
        0 + ((up.chunks.map (fun s => s.chunk.length)).sum : Int) ≠
          up.contentLength
    · rw [if_pos hmis]
      exact ⟨miss_headers_xcache _ _, by trivial,
        by trivial, by trivial,
        by trivial⟩
    · rw [if_neg hmis]
      exact ⟨miss_headers_xcache _ _, by trivial,
        by trivial, by trivial,
        by trivial⟩

/-- Witness for C2 (amended) at a concrete pending cache and a concrete
two-chunk upstream body. -/
theorem C2_amended_keeps_own_response_witness :
    alookup (doFetchAndServe
        ((cacheInit 100 10 5).GetOrCreatePending "k" true).2 "k" "GET"
        { status := 200, contentLength := 3, contentType := "t",
          chunks := [{ chunk := [1, 2], sfWriteOk := true, clientWriteOk := true },
                     { chunk := [3], sfWriteOk := true, clientWriteOk := true }],
          readErr := false } 0).resp.headers "X-Cache" = some "MISS" ∧
    (doFetchAndServe
        ((cacheInit 100 10 5).GetOrCreatePending "k" true).2 "k" "GET"
        { status := 200, contentLength := 3, contentType := "t",
          chunks := [{ chunk := [1, 2], sfWriteOk := true, clientWriteOk := true },
                     { chunk := [3], sfWriteOk := true, clientWriteOk := true }],
          readErr := false } 0).failPendingCalled = false := by
  have h := C2_amended_keeps_own_response
    ((cacheInit 100 10 5).GetOrCreatePending "k" true).2 "k"
    { status := 200, contentLength := 3, contentType := "t",
      chunks := [{ chunk := [1, 2], sfWriteOk := true, clientWriteOk := true },
                 { chunk := [3], sfWriteOk := true, clientWriteOk := true }],
      readErr := false } 0 NewStreamingFile (by decide) rfl
    (by intro s hs; fin_cases hs <;> rfl)
  exact ⟨h.1, h.2.2.2.1⟩

/-- C3: evaluation of the fetch path at the failing input.  The fetcher
owns the pending entry (`is_new = true`); the cache-file write of the
first chunk fails.  The code merely sets `isNew = false` and keeps
serving: the client receives the whole body, but `FailPending` is never
called — the key stays in the pending map and its StreamingFile is
neither completed nor aborted (`done = false`, `err = nil`), contrary
to the claim that `fail_pending` removes the key and aborts the
StreamingFile. -/
theorem C3_write_failure_leaks_pending :
    (doFetchAndServe (cacheInit 100 10 5) "k" "GET"
        { status := 200, contentLength := 3, contentType := "t",
          chunks := [{ chunk := [5, 6], sfWriteOk := false, clientWriteOk := true },
                     { chunk := [7], sfWriteOk := true, clientWriteOk := true }],
          readErr := false } 0).resp.body = [5, 6, 7] ∧
    (doFetchAndServe (cacheInit 100 10 5) "k" "GET"
        { status := 200, contentLength := 3, contentType := "t",
          chunks := [{ chunk := [5, 6], sfWriteOk := false, clientWriteOk := true },
                     { chunk := [7], sfWriteOk := true, clientWriteOk := true }],
          readErr := false } 0).failPendingCalled = false ∧
    (doFetchAndServe (cacheInit 100 10 5) "k" "GET"
        { status := 200, contentLength := 3, contentType := "t",
          chunks := [{ chunk := [5, 6], sfWriteOk := false, clientWriteOk := true },
                     { chunk := [7], sfWriteOk := true, clientWriteOk := true }],
          readErr := false } 0).completePendingCalled = false ∧
    ((alookup (doFetchAndServe (cacheInit 100 10 5) "k" "GET"
        { status := 200, contentLength := 3, contentType := "t",
          chunks := [{ chunk := [5, 6], sfWriteOk := false, clientWriteOk := true },
                     { chunk := [7], sfWriteOk := true, clientWriteOk := true }],
          readErr := false } 0).cache.pending "k").map
      (fun sf => (sf.done, sf.err))) = some (false, none) := by
  decide

/-! ## Concurrent requests through `fetchAndServe` (single-flight)

A small interleaving model of N concurrent GET requests for the same
key on a cold cache.  Each request executes two atomic regions of the
source:

* from `start`, the `fetchAndServe` checks — `fetchLocks.LoadOrStore`,
  `lock.done` (false throughout a first fetch), `GetPending` — and, when
  no pending StreamingFile exists, the issuing of the upstream GET
  (`httpClient.Do`).  No shared write happens between these checks and
  the GET, so they form one atomic step.  When a pending StreamingFile
  exists the request is served from it as a reader (§4.5).
* from `inFlight`, the arrival of the 200 response and the whole rest of
  `doFetchAndServe` (`GetOrCreatePending`, the body copy, the terminal
  disposition), atomically.

All requests target `key` and the upstream always answers 200 with the
same body. -/

inductive RequestPC where
  | start
  | inFlight
  | doneStreaming
  | doneMiss
  deriving DecidableEq

structure SysState where
  cache : CacheState
  procs : List RequestPC
  /-- Upstream GETs currently in flight. -/
  inFlight : Nat
  /-- Upstream GETs issued so far. -/
  issued : Nat
  deriving DecidableEq

/-- One atomic step of request `pid` (see the section comment). -/
def sysStep (key : String) (body : List Nat) (ct : String) (now : Int)
    (s : SysState) (pid : Nat) : SysState :=
  match s.procs[pid]? with
  | none => s
  | some RequestPC.start =>
    if (alookup s.cache.pending key).isSome then
      { s with procs := s.procs.set pid RequestPC.doneStreaming }
    else
      { s with procs := s.procs.set pid RequestPC.inFlight,
               inFlight := s.inFlight + 1, issued := s.issued + 1 }
  | some RequestPC.inFlight =>
    let fr := doFetchAndServe s.cache key "GET"
      { status := 200, contentLength := (body.length : Int), contentType := ct,
        chunks := [{ chunk := body, sfWriteOk := true, clientWriteOk := true }],
        readErr := false } now
    { s with cache := fr.cache,
             procs := s.procs.set pid RequestPC.doneMiss,
             inFlight := s.inFlight - 1 }
  | some _ => s

/-- Run a schedule (a list of request ids). -/
def sysRun (key : String) (body : List Nat) (ct : String) (now : Int)
    (s : SysState) (sched : List Nat) : SysState :=
  sched.foldl (sysStep key body ct now) s

/-- N requests at `start` against a cold cache. -/
def sysInit (n : Nat) : SysState :=
  { cache := cacheInit 1000 10 5, procs := List.replicate n RequestPC.start,
    inFlight := 0, issued := 0 }

/-- C1: evaluation of the concurrent model at the failing input.  Two
requests for the same key arrive on a cold cache and both pass the
pending-map check before either upstream response arrives (schedule
`[0, 1]`): both issue an upstream GET, so two GETs are in flight at
once and two are issued in total — also after both responses arrive and
are served (schedule `[0, 1, 0, 1]`) — contradicting the claimed
at-most-one-in-flight / exactly-one-issued single-flight guarantee. -/
theorem C1_miss_storm_issues_two_gets :
    (sysRun "k" [1, 2, 3] "t" 0 (sysInit 2) [0, 1]).inFlight = 2 ∧
    (sysRun "k" [1, 2, 3] "t" 0 (sysInit 2) [0, 1]).issued = 2 ∧
    (sysRun "k" [1, 2, 3] "t" 0 (sysInit 2) [0, 1, 0, 1]).issued = 2 ∧
    (sysRun "k" [1, 2, 3] "t" 0 (sysInit 2) [0, 1, 0, 1]).procs =
      [RequestPC.doneMiss, RequestPC.doneMiss] := by
  decide
